import Mathlib

/-
Verification development for the TIFF tile source
(src/server/tilesource/tiff.py, class TiffFileTileSource).

Modeling conventions.
* The external directory parser (tiff_reader.TiledTiffDirectory) is represented
  by the outcome of opening each directory number: a parsed record, a
  ValidationTiffException, or a terminating TiffException.  A parsed record
  carries exactly the fields the tile source reads.
* Machine floats in the level formula and in the synthesizer bound are modeled
  by exact arithmetic over Nat and Int: the comparisons are cross-multiplied so
  that no division appears.  The source computes them with Python floats; the
  model is the exact real value of the same expressions.
* Tile rasters are opaque: a Tile value is the tree of codec operations
  (read, blank canvas, paste, crop, resize) the source performs.  The external
  helpers PIL.Image and FileTileSource.outputTile transform representations
  only, so they are modeled as the identity on this tree.
* Exceptions are values: TileSourceException outcomes are the TErr type, with
  one constructor per distinct raise site observable from getTile.
* Recursion in getTile is modeled with explicit fuel; TErr.outOfFuel is an
  artifact of the embedding, never a behavior of the source, and the
  termination theorem shows it is unreachable for fuel larger than the number
  of levels.
* Python list indexing directories[z] for an Int z is modeled by pyNorm,
  including negative indices; IndexError is the none case.
-/

/-- One tiled TIFF directory as seen by the tile source: tile geometry, full
image geometry and the mapping of embedded (associated) image names.  The
fields mirror the attributes of TiledTiffDirectory that tiff.py reads. -/
structure Dir where
  tileWidth : Nat
  tileHeight : Nat
  imageWidth : Nat
  imageHeight : Nat
  embeddedImages : List String
deriving DecidableEq

/-- Structural loop computing the least n with m two-to-the-n at least m:
walks pow = 1, 2, 4, ... counting steps until m is covered.  Called with
fuel m, which always suffices. -/
def ceilLog2Aux (m : Nat) : Nat → Nat → Nat → Nat
  | 0, _, n => n
  | fuel + 1, pow, n => if m ≤ pow then n else ceilLog2Aux m fuel (pow * 2) (n + 1)

/-- Least n with m at most 2 ^ n (0 for m = 0 or 1). -/
def ceilLog2 (m : Nat) : Nat := ceilLog2Aux m m 1 0

/-- Ceiling division on Nat. -/
def natCeilDiv (a b : Nat) : Nat := (a + b - 1) / b

/-- Level number of a directory, from tiff.py line 79:
max(0, ceil(log(max(W / tw, H / th)) / log(2))) with real division; exactly
the least n with W at most tw * 2 ^ n and H at most th * 2 ^ n, which equals
the ceiling log2 of the larger ceiling ratio.  The source evaluates this with
floats and raises ValueError when W = H = 0 (log of zero); the model returns 0
there, a case no built directory can reach with nonzero tile geometry and a
real image. -/
def dirLevel (td : Dir) : Nat :=
  ceilLog2 (max (natCeilDiv td.imageWidth td.tileWidth)
                (natCeilDiv td.imageHeight td.tileHeight))

/-- Outcome of constructing TiledTiffDirectory(path, directoryNum): a usable
record, a ValidationTiffException (skipped, recorded as last exception), or a
TiffException (stops the enumeration, recorded only if nothing was recorded). -/
inductive DirOutcome where
  | okDir (td : Dir)
  | validationErr (msg : String)
  | tiffErr (msg : String)
deriving DecidableEq

/-- Entry of the alldir list in the source: (tileWidth * tileHeight, level,
directory), the tuple used for sorting. -/
abbrev TEntry := Nat × Nat × Dir

/-- The directory enumeration loop of TiffFileTileSource init (lines 64 to 83):
collects tiled directories as TEntry values, skips validation failures while
remembering the latest one, and stops at the first TiffException, remembering
it only when no exception was seen before. -/
def scanDirAux (acc : List TEntry) (lastE : Option String) :
    List DirOutcome → List TEntry × Option String
  | [] => (acc, lastE)
  | .validationErr m :: rest => scanDirAux acc (some m) rest
  | .tiffErr m :: _ => (acc, lastE.orElse (fun _ => some m))
  | .okDir td :: rest =>
    if td.tileWidth = 0 ∨ td.tileHeight = 0 then scanDirAux acc lastE rest
    else scanDirAux (acc ++ [(td.tileWidth * td.tileHeight, dirLevel td, td)]) lastE rest

/-- The comparison used by alldir.sort(): lexicographic on (area, level).
Full ties are broken by Python object comparison, which is arbitrary; the
model fixes an arbitrary deterministic order by using a stable sort, and no
statement depends on the order within full ties. -/
def sortR : TEntry → TEntry → Prop :=
  fun a b => a.1 < b.1 ∨ (a.1 = b.1 ∧ a.2.1 ≤ b.2.1)

instance : DecidableRel sortR := fun a b => by unfold sortR; infer_instance

instance : IsTotal TEntry sortR := ⟨by intro a b; unfold sortR; omega⟩

instance : IsTrans TEntry sortR := ⟨by intro a b c; unfold sortR; omega⟩

/-- The level-indexed dict of the source with last-write-wins semantics:
directories[level] after inserting the entries of m in list order. -/
def lookupLast (m : List TEntry) (k : Nat) : Option Dir :=
  ((m.filter (fun e => e.2.1 == k)).getLast?).map (fun e => e.2.2)

/-- max(directories.keys()) of the source: largest level among the entries
(0 when empty, a case the source never reaches). -/
def maxKeyOf (m : List TEntry) : Nat := m.foldl (fun a e => max a e.2.1) 0

/-- The pyramid state a successfully opened TiffFileTileSource holds:
the dense level array (None for missing levels) and the canonical geometry.
self.levels of the source is directories.length. -/
structure Pyramid where
  directories : List (Option Dir)
  tileWidth : Nat
  tileHeight : Nat
  sizeX : Nat
  sizeY : Nat
deriving DecidableEq

/-- The TileSourceException raised when no tiled directory is usable
(tiff.py lines 85 to 89): the message interpolates the path and the last
recorded exception, modeled structurally. -/
structure OpenError where
  path : String
  lastException : Option String
deriving DecidableEq

/-- Lines 90 to 115 of the source, after alldir is known nonempty and sortedment:
highest is the last sorted entry, entries with a different tile geometry are
discarded, the rest are indexed by level with last write winning, and the
dense array runs from 0 to the largest level. -/
def mkPyramid (sorted : List TEntry) (highest : TEntry) : Pyramid :=
  let matching := sorted.filter (fun e =>
    e.2.2.tileWidth == highest.2.2.tileWidth && e.2.2.tileHeight == highest.2.2.tileHeight)
  { directories := (List.range (maxKeyOf matching + 1)).map (fun k => lookupLast matching k)
    tileWidth := highest.2.2.tileWidth
    tileHeight := highest.2.2.tileHeight
    sizeX := highest.2.2.imageWidth
    sizeY := highest.2.2.imageHeight }

/-- TiffFileTileSource init: enumerate directories, fail with the formatted
TileSourceException when nothing usable was found, else sort and build the
level array. -/
def buildPyramid (path : String) (outcomes : List DirOutcome) : Except OpenError Pyramid :=
  let res := scanDirAux [] none outcomes
  match (List.insertionSort sortR res.1).getLast? with
  | none => .error { path := path, lastException := res.2 }
  | some highest => .ok (mkPyramid (List.insertionSort sortR res.1) highest)

/-- Python list indexing semantics for directories[z] with an Int index:
returns the normalized Nat index, or none for IndexError. -/
def pyNorm (len : Nat) (z : Int) : Option Nat :=
  if 0 ≤ z ∧ z < (len : Int) then some z.toNat
  else if -(len : Int) ≤ z ∧ z < 0 then some ((len : Int) + z).toNat
  else none

/-- Outcome of the external codec call directories[idx].getTile(x, y):
success, IOTiffException, or InvalidOperationTiffException. -/
inductive ReadOutcome where
  | okRead
  | ioErr
  | invalidOp
deriving DecidableEq

/-- A tile raster as the tree of codec operations that produced it.  raw is a
successful directory read (by normalized level index), the rest are the PIL
operations the source performs; outputTile is representation conversion only
and is the identity on this tree. -/
inductive Tile where
  | raw (z x y : Nat)
  | blank (w h : Nat)
  | paste (canvas : Tile) (sub : Tile) (ox oy : Nat)
  | crop (left top right bottom : Nat) (src : Tile)
  | resize (w h : Nat) (src : Tile)
deriving DecidableEq

/-- The TileSourceException outcomes of getTile, one per raise site:
zLayer is the message about a missing z layer raised from IndexError,
invalidOp wraps InvalidOperationTiffException, ioFailure is the internal
I/O failure message.  outOfFuel is the embedding artifact. -/
inductive TErr where
  | zLayer
  | invalidOp
  | ioFailure
  | outOfFuel
deriving DecidableEq

/-- Decidable equality of Except results, needed to evaluate the model on
concrete inputs. -/
instance instDecEqExcept {e a : Type} [DecidableEq e] [DecidableEq a] :
    DecidableEq (Except e a)
  | .error e1, .error e2 =>
    if h : e1 = e2 then .isTrue (congrArg Except.error h)
    else .isFalse (fun hc => h (by cases hc; rfl))
  | .ok v1, .ok v2 =>
    if h : v1 = v2 then .isTrue (congrArg Except.ok h)
    else .isFalse (fun hc => h (by cases hc; rfl))
  | .error _, .ok _ => .isFalse (fun hc => Except.noConfusion hc)
  | .ok _, .error _ => .isFalse (fun hc => Except.noConfusion hc)

/-- Environment of an opened source: the pyramid, the codec outcome for each
directory read (indexed by normalized level), and whether PIL imported. -/
structure TiffEnv where
  pyr : Pyramid
  readTile : Nat → Nat → Nat → ReadOutcome
  pil : Bool

/-- The crop plus resize of the sparse fallback handler (lines 160 to 165):
the quadrant of the parent tile selected by the parities of x and y, scaled
back to a full tile. -/
def quadrantTile (tw th x y : Nat) (img : Tile) : Tile :=
  Tile.resize tw th (Tile.crop
    (if x % 2 = 1 then tw / 2 else 0)
    (if y % 2 = 1 then th / 2 else 0)
    (if x % 2 = 1 then tw else tw / 2)
    (if y % 2 = 1 then th else th / 2) img)

/-- The skip test of getTileFromEmptyDirectory (lines 186 to 192) in exact
arithmetic.  The source compares x * scale + nx against
maxX = 2.0 ** (zc + 1 - levels) * sizeX / tileWidth with floats; multiplying
both sides by tileWidth * 2 ^ (levels - 1 - zc) (positive) gives the Int
comparison below, where exactly one of the two exponents is nonzero. -/
def synthSkip (p : Pyramid) (zc : Int) (x y scale nx ny : Nat) : Bool :=
  (nx != 0 || ny != 0) &&
  (decide (((x * scale + nx) * p.tileWidth : Int) *
      2 ^ ((p.directories.length : Int) - 1 - zc).toNat
      ≥ (p.sizeX : Int) * 2 ^ (zc + 1 - (p.directories.length : Int)).toNat)
  || decide (((y * scale + ny) * p.tileHeight : Int) *
      2 ^ ((p.directories.length : Int) - 1 - zc).toNat
      ≥ (p.sizeY : Int) * 2 ^ (zc + 1 - (p.directories.length : Int)).toNat))

/-- Result of the upward scan of getTileFromEmptyDirectory: the first
populated level at or above the start together with the accumulated scale,
or IndexError when the scan runs past the array. -/
inductive ClimbRes where
  | found (z : Int) (scale : Nat)
  | indexErr
  | stuck
deriving DecidableEq

/-- The while loop of lines 180 to 183: while directories[z] is None,
scale doubles and z increments.  Fueled; stuck is unreachable for the fuel
used by the caller. -/
def climbF (dirs : List (Option Dir)) : Nat → Int → Nat → ClimbRes
  | 0, _, _ => .stuck
  | k + 1, z, scale =>
    match pyNorm dirs.length z with
    | none => .indexErr
    | some idx =>
      match dirs.getD idx none with
      | some _ => .found z scale
      | none => climbF dirs k (z + 1) (scale * 2)

/-- The iteration order of the two nested for loops of lines 188 to 189:
newX outer, newY inner, both over range scale. -/
def synthCells (scale : Nat) : List (Nat × Nat) :=
  (List.range scale).flatMap (fun nx => (List.range scale).map (fun ny => (nx, ny)))

/-- One iteration of the synthesis loop body: skip out-of-bound non-origin
cells, otherwise fetch the subtile and paste it at (nx * tw, ny * th);
a failed fetch aborts the whole synthesis. -/
def synthPaste (tw th : Nat) (skip : Nat → Nat → Bool)
    (fetch : Nat → Nat → Except TErr Tile)
    (acc : Except TErr Tile) (c : Nat × Nat) : Except TErr Tile :=
  match acc with
  | .error e => .error e
  | .ok canvas =>
    if skip c.1 c.2 then .ok canvas
    else match fetch c.1 c.2 with
      | .error e => .error e
      | .ok sub => .ok (.paste canvas sub (c.1 * tw) (c.2 * th))

/-- getTileFromEmptyDirectory body over an abstract recursive fetch:
climb to the first populated level, compose the canvas of blank tiles and
fetched subtiles, and resize it back to one tile (LANCZOS in the source). -/
def emptyDirTile (p : Pyramid) (fetch : Nat → Nat → Int → Except TErr Tile)
    (x y : Nat) (z : Int) : Except TErr Tile :=
  match climbF p.directories (2 * p.directories.length + 2) z 1 with
  | .stuck => .error .outOfFuel
  | .indexErr => .error .zLayer
  | .found zc scale =>
    match (synthCells scale).foldl (synthPaste p.tileWidth p.tileHeight
        (fun nx ny => synthSkip p zc x y scale nx ny)
        (fun nx ny => fetch (x * scale + nx) (y * scale + ny) zc))
        (.ok (.blank (p.tileWidth * scale) (p.tileHeight * scale))) with
    | .error e => .error e
    | .ok canvas => .ok (.resize p.tileWidth p.tileHeight canvas)

/-- getTile (lines 134 to 168) with explicit fuel.  The body follows the
source: directories[z] missing from the array is IndexError; an empty slot
raises the internal IOTiffException when sparseFallback is set and otherwise
delegates to getTileFromEmptyDirectory; a populated slot reads the tile.
The IOTiffException handler (fb) recurses one level down on the parent tile
and crops the parity quadrant when sparseFallback, z nonzero and PIL all
hold, else surfaces the internal I/O failure. -/
def getTileF (env : TiffEnv) : Nat → Nat → Nat → Int → Bool → Except TErr Tile
  | 0, _, _, _, _ => .error .outOfFuel
  | fuel + 1, x, y, z, sf =>
    let fb : Except TErr Tile :=
      if sf = true ∧ z ≠ 0 ∧ env.pil = true then
        match getTileF env fuel (x / 2) (y / 2) (z - 1) sf with
        | .error e => .error e
        | .ok img => .ok (quadrantTile env.pyr.tileWidth env.pyr.tileHeight x y img)
      else .error .ioFailure
    match pyNorm env.pyr.directories.length z with
    | none => .error .zLayer
    | some idx =>
      match env.pyr.directories.getD idx none with
      | some _ =>
        match env.readTile idx x y with
        | .okRead => .ok (.raw idx x y)
        | .invalidOp => .error .invalidOp
        | .ioErr => fb
      | none =>
        if sf = true then fb
        else emptyDirTile env.pyr (fun a b c => getTileF env fuel a b c true) x y z

/-- Named form of the recursive getTileFromEmptyDirectory call as getTile
makes it: subtile fetches recurse through getTile with sparseFallback True. -/
def getTileFromEmptyDirectoryF (env : TiffEnv) (fuel x y : Nat) (z : Int) :
    Except TErr Tile :=
  emptyDirTile env.pyr (fun a b c => getTileF env fuel a b c true) x y z

/-- Named form of the IOTiffException handler of getTile (lines 154 to 168). -/
def fallbackQuadF (env : TiffEnv) (fuel x y : Nat) (z : Int) (sf : Bool) :
    Except TErr Tile :=
  if sf = true ∧ z ≠ 0 ∧ env.pil = true then
    match getTileF env fuel (x / 2) (y / 2) (z - 1) sf with
    | .error e => .error e
    | .ok img => .ok (quadrantTile env.pyr.tileWidth env.pyr.tileHeight x y img)
  else .error .ioFailure

/-- The while loop of getPreferredLevel (lines 213 to 214), fueled: steps to
the next level while the slot is empty and the index is below levels - 1.
The caller passes fuel equal to the array length, which never exhausts. -/
def scanUpF (dirs : List (Option Dir)) : Nat → Nat → Nat
  | 0, l => l
  | k + 1, l =>
    if dirs.getD l none = none ∧ l < dirs.length - 1 then scanUpF dirs k (l + 1) else l

/-- getPreferredLevel (lines 203 to 215): clamp the requested level into
[0, levels - 1], then scan upward to the first populated slot or the top. -/
def getPreferredLevel (p : Pyramid) (level : Int) : Nat :=
  scanUpF p.directories p.directories.length
    (max 0 (min level ((p.directories.length : Int) - 1))).toNat

/-- The order Python sorted() applies to the name strings: lexicographic by
code point, stated on the underlying character lists so that it computes. -/
def strLe (a b : String) : Prop := a.data ≤ b.data

instance : DecidableRel strLe := fun a b => by unfold strLe; infer_instance

/-- getAssociatedImagesList (lines 217 to 226): fold the union of embedded
image names over every entry of the level array.  A None slot makes the
source dereference None and raise AttributeError, modeled as the none
result; on success the sorted distinct names are returned. -/
def getAssociatedImagesList (p : Pyramid) : Option (List String) :=
  match p.directories.foldl (fun acc slot =>
      match acc, slot with
      | none, _ => none
      | some _, none => none
      | some l, some td => some (l ++ td.embeddedImages)) (some ([] : List String)) with
  | none => none
  | some l => some (List.insertionSort strLe l.dedup)

/-- Unfolding of one getTile step in terms of the named handler functions. -/
theorem getTileF_succ (env : TiffEnv) (fuel x y : Nat) (z : Int) (sf : Bool) :
    getTileF env (fuel + 1) x y z sf =
      match pyNorm env.pyr.directories.length z with
      | none => .error .zLayer
      | some idx =>
        match env.pyr.directories.getD idx none with
        | some _ =>
          match env.readTile idx x y with
          | .okRead => .ok (.raw idx x y)
          | .invalidOp => .error .invalidOp
          | .ioErr => fallbackQuadF env fuel x y z sf
        | none =>
          if sf = true then fallbackQuadF env fuel x y z sf
          else getTileFromEmptyDirectoryF env fuel x y z := rfl

/-- Dispatch: an index outside the Python range raises IndexError, surfaced
as the missing z layer TileSourceException. -/
theorem getTileF_oob (env : TiffEnv) (fuel x y : Nat) (z : Int) (sf : Bool)
    (hn : pyNorm env.pyr.directories.length z = none) :
    getTileF env (fuel + 1) x y z sf = .error .zLayer := by
  rw [getTileF_succ, hn]

/-- Dispatch: an empty slot with sparseFallback True enters the
IOTiffException handler. -/
theorem getTileF_empty_true (env : TiffEnv) (fuel x y : Nat) (z : Int) (idx : Nat)
    (hn : pyNorm env.pyr.directories.length z = some idx)
    (he : env.pyr.directories.getD idx none = none) :
    getTileF env (fuel + 1) x y z true = fallbackQuadF env fuel x y z true := by
  simp only [getTileF_succ, hn, he, if_true]

/-- Dispatch: an empty slot with sparseFallback False delegates to
getTileFromEmptyDirectory. -/
theorem getTileF_empty_false (env : TiffEnv) (fuel x y : Nat) (z : Int) (idx : Nat)
    (hn : pyNorm env.pyr.directories.length z = some idx)
    (he : env.pyr.directories.getD idx none = none) :
    getTileF env (fuel + 1) x y z false = getTileFromEmptyDirectoryF env fuel x y z := by
  simp only [getTileF_succ, hn, he, Bool.false_eq_true, if_false]

/-- Dispatch: a populated slot reads through the codec; the three codec
outcomes map to the tile, the invalid operation error, and the
IOTiffException handler. -/
theorem getTileF_read (env : TiffEnv) (fuel x y : Nat) (z : Int) (sf : Bool)
    (idx : Nat) (d : Dir)
    (hn : pyNorm env.pyr.directories.length z = some idx)
    (hd : env.pyr.directories.getD idx none = some d) :
    getTileF env (fuel + 1) x y z sf =
      match env.readTile idx x y with
      | .okRead => .ok (.raw idx x y)
      | .invalidOp => .error .invalidOp
      | .ioErr => fallbackQuadF env fuel x y z sf := by
  simp only [getTileF_succ, hn, hd]

/-- The handler recursion when sparseFallback, a nonzero z and PIL all hold. -/
theorem fallbackQuadF_active (env : TiffEnv) (fuel x y : Nat) (z : Int)
    (hz : z ≠ 0) (hpil : env.pil = true) :
    fallbackQuadF env fuel x y z true =
      match getTileF env fuel (x / 2) (y / 2) (z - 1) true with
      | .error e => .error e
      | .ok img => .ok (quadrantTile env.pyr.tileWidth env.pyr.tileHeight x y img) := by
  unfold fallbackQuadF
  rw [if_pos ⟨rfl, hz, hpil⟩]

/-- The handler surfaces the internal I/O failure when sparseFallback is
unset, z is 0, or PIL is absent. -/
theorem fallbackQuadF_inactive (env : TiffEnv) (fuel x y : Nat) (z : Int) (sf : Bool)
    (h : sf = false ∨ z = 0 ∨ env.pil = false) :
    fallbackQuadF env fuel x y z sf = .error .ioFailure := by
  unfold fallbackQuadF
  rw [if_neg]
  rintro ⟨hsf, hz0, hpil⟩
  rcases h with h | h | h
  · rw [h] at hsf; cases hsf
  · exact hz0 h
  · rw [h] at hpil; cases hpil

/-- Fixture: a level 0 directory, 2 by 2 image in one 2 by 2 tile. -/
def d0 : Dir := ⟨2, 2, 2, 2, []⟩

/-- Fixture: a level 2 directory, 8 by 8 image in 2 by 2 tiles. -/
def dTop : Dir := ⟨2, 2, 8, 8, []⟩

/-- Fixture: a sparse three level pyramid with level 1 missing. -/
def pyr3 : Pyramid := ⟨[some d0, none, some dTop], 2, 2, 8, 8⟩

/-- Fixture: pyr3 with an always succeeding codec and PIL present. -/
def env3 : TiffEnv := ⟨pyr3, fun _ _ _ => .okRead, true⟩

/-- Fixture: pyr3 with a codec whose every read raises IOTiffException. -/
def envIO : TiffEnv := ⟨pyr3, fun _ _ _ => .ioErr, true⟩

/-- C1 counterexample.  The claim says that at an empty level slot one state
of the sparseFallback flag makes getTile fail with the missing level error
and return no tile.  On the sparse fixture at the empty level z = 1, both
flag states return a tile: sparseFallback False delegates to the synthesizer
and sparseFallback True falls back to the parent tile quadrant; no error
surfaces in either state. -/
theorem c1_counterexample :
    getTileF env3 10 0 0 1 false =
      .ok (.resize 2 2 (.paste (.paste (.paste (.paste (.blank 4 4)
        (.raw 2 0 0) 0 0) (.raw 2 0 1) 0 2) (.raw 2 1 0) 2 0) (.raw 2 1 1) 2 2))
    ∧ getTileF env3 10 5 3 1 true =
      .ok (.resize 2 2 (.crop 1 1 2 2 (.raw 0 2 1))) := ⟨rfl, rfl⟩

/-- C1 amended.  In the source the state that disallows delegation to the
synthesizer is sparseFallback True, not False: with sparseFallback True an
empty slot raises the internal missing level IOTiffException, which the same
call handles by the parent quadrant fallback, surfacing a TileSourceException
only when z is 0 or PIL is absent; with sparseFallback False getTile
delegates to getTileFromEmptyDirectory. -/
theorem c1_amended_dispatch (env : TiffEnv) (fuel x y : Nat) (z : Int) (idx : Nat)
    (hn : pyNorm env.pyr.directories.length z = some idx)
    (he : env.pyr.directories.getD idx none = none) :
    (getTileF env (fuel + 1) x y z true = fallbackQuadF env fuel x y z true
      ∧ ((z = 0 ∨ env.pil = false) →
          getTileF env (fuel + 1) x y z true = .error .ioFailure))
    ∧ getTileF env (fuel + 1) x y z false = getTileFromEmptyDirectoryF env fuel x y z := by
  refine ⟨⟨getTileF_empty_true env fuel x y z idx hn he, ?_⟩,
    getTileF_empty_false env fuel x y z idx hn he⟩
  intro h
  rw [getTileF_empty_true env fuel x y z idx hn he,
    fallbackQuadF_inactive env fuel x y z true (Or.inr h)]

/-- C1 amended witness at the sparse fixture. -/
theorem c1_amended_dispatch_witness :
    getTileF env3 10 7 4 1 true = fallbackQuadF env3 9 7 4 1 true
    ∧ getTileF env3 10 7 4 1 false = getTileFromEmptyDirectoryF env3 9 7 4 1 :=
  ⟨(c1_amended_dispatch env3 9 7 4 1 1 rfl rfl).1.1,
   (c1_amended_dispatch env3 9 7 4 1 1 rfl rfl).2⟩

/-- C2 counterexample.  The claim says every z outside [0, levels) fails with
the invalid level error.  At z = -1 the source applies Python negative
indexing and serves the tile of the top level instead of failing. -/
theorem c2_counterexample :
    getTileF env3 10 0 0 (-1) false = .ok (.raw 2 0 0) := rfl

/-- C2 amended.  For z at least levels, or z below minus levels, getTile
raises the TileSourceException about a missing z layer (from IndexError).
For minus levels at most z below 0, Python negative indexing applies: the
slot levels + z is used, so a successful read serves the tile of that other
level rather than failing. -/
theorem c2_amended_bounds (env : TiffEnv) (fuel x y : Nat) :
    (∀ z : Int, ∀ sf : Bool,
      ((env.pyr.directories.length : Int) ≤ z ∨ z < -(env.pyr.directories.length : Int)) →
      getTileF env (fuel + 1) x y z sf = .error .zLayer)
    ∧ (∀ z : Int, ∀ sf : Bool, ∀ d : Dir,
      -(env.pyr.directories.length : Int) ≤ z → z < 0 →
      env.pyr.directories.getD ((env.pyr.directories.length : Int) + z).toNat none = some d →
      env.readTile ((env.pyr.directories.length : Int) + z).toNat x y = .okRead →
      getTileF env (fuel + 1) x y z sf =
        .ok (.raw ((env.pyr.directories.length : Int) + z).toNat x y)) := by
  constructor
  · intro z sf hz
    have hn : pyNorm env.pyr.directories.length z = none := by
      unfold pyNorm
      rw [if_neg (by omega), if_neg (by omega)]
    exact getTileF_oob env fuel x y z sf hn
  · intro z sf d h1 h2 hd hr
    have hn : pyNorm env.pyr.directories.length z =
        some ((env.pyr.directories.length : Int) + z).toNat := by
      unfold pyNorm
      rw [if_neg (by omega), if_pos (by constructor <;> omega)]
    rw [getTileF_read env fuel x y z sf _ d hn hd, hr]

/-- C2 amended witness at the sparse fixture: z = 5 fails with the missing
layer error, z = -1 serves the top level tile. -/
theorem c2_amended_bounds_witness :
    getTileF env3 10 1 0 5 false = .error .zLayer
    ∧ getTileF env3 10 1 0 (-1) true = .ok (.raw 2 1 0) :=
  ⟨(c2_amended_bounds env3 9 1 0).1 5 false (by decide),
   (c2_amended_bounds env3 9 1 0).2 (-1) true dTop (by decide) (by decide) rfl rfl⟩

/-- C8 (code bug).  getAssociatedImagesList iterates every entry of the level
array including the None placeholders of a sparse pyramid, so on the sparse
fixture the source dereferences None and raises AttributeError (the none
result); on a fully populated pyramid the sorted union of embedded image
names is returned as the claim describes. -/
theorem c8_assoc_images_crash :
    getAssociatedImagesList pyr3 = none
    ∧ getAssociatedImagesList
        ⟨[some ⟨2, 2, 2, 2, ["b", "a"]⟩, some ⟨2, 2, 4, 4, ["a", "c"]⟩], 2, 2, 4, 4⟩ =
      some ["a", "b", "c"] := ⟨rfl, by decide⟩

/-- C10.  With sparseFallback True and PIL present, a failed fetch at a
nonzero level (empty slot or an IOTiffException from the read) is not
surfaced: if the recursive fetch of the parent tile at
(x / 2, y / 2, z - 1) yields a tile, the call returns the parity selected
quadrant of it, cropped and resized to one tile; at z = 0 the same failure
surfaces as the internal I/O TileSourceException. -/
theorem c10_quadrant_fallback (env : TiffEnv) (fuel x y : Nat) (hpil : env.pil = true) :
    (∀ z : Int, ∀ idx : Nat, ∀ img : Tile, z ≠ 0 →
      pyNorm env.pyr.directories.length z = some idx →
      (env.pyr.directories.getD idx none = none ∨
        (∃ d, env.pyr.directories.getD idx none = some d ∧
          env.readTile idx x y = .ioErr)) →
      getTileF env fuel (x / 2) (y / 2) (z - 1) true = .ok img →
      getTileF env (fuel + 1) x y z true =
        .ok (quadrantTile env.pyr.tileWidth env.pyr.tileHeight x y img))
    ∧ (∀ idx : Nat,
      pyNorm env.pyr.directories.length 0 = some idx →
      (env.pyr.directories.getD idx none = none ∨
        (∃ d, env.pyr.directories.getD idx none = some d ∧
          env.readTile idx x y = .ioErr)) →
      getTileF env (fuel + 1) x y 0 true = .error .ioFailure) := by
  constructor
  · intro z idx img hz hn hfail hrec
    have hfb : fallbackQuadF env fuel x y z true =
        .ok (quadrantTile env.pyr.tileWidth env.pyr.tileHeight x y img) := by
      rw [fallbackQuadF_active env fuel x y z hz hpil, hrec]
    rcases hfail with he | ⟨d, hd, hr⟩
    · rw [getTileF_empty_true env fuel x y z idx hn he, hfb]
    · rw [getTileF_read env fuel x y z true idx d hn hd, hr, hfb]
  · intro idx hn hfail
    have hfb : fallbackQuadF env fuel x y 0 true = .error .ioFailure :=
      fallbackQuadF_inactive env fuel x y 0 true (Or.inr (Or.inl rfl))
    rcases hfail with he | ⟨d, hd, hr⟩
    · rw [getTileF_empty_true env fuel x y 0 idx hn he, hfb]
    · rw [getTileF_read env fuel x y 0 true idx d hn hd, hr, hfb]

/-- C10 witness: the empty level 1 of the sparse fixture produces the parent
quadrant, and an IOTiffException at level 0 surfaces the internal failure. -/
theorem c10_quadrant_fallback_witness :
    getTileF env3 10 5 3 1 true = .ok (quadrantTile 2 2 5 3 (.raw 0 2 1))
    ∧ getTileF envIO 10 5 3 0 true = .error .ioFailure :=
  ⟨(c10_quadrant_fallback env3 9 5 3 rfl).1 1 1 (.raw 0 2 1) (by decide) rfl
      (Or.inl rfl) rfl,
   (c10_quadrant_fallback envIO 9 5 3 rfl).2 0 rfl (Or.inr ⟨d0, rfl, rfl⟩)⟩

/-- Equation: one step of the getPreferredLevel while loop. -/
theorem scanUpF_succ (dirs : List (Option Dir)) (k l : Nat) :
    scanUpF dirs (k + 1) l =
      if dirs.getD l none = none ∧ l < dirs.length - 1 then scanUpF dirs k (l + 1)
      else l := rfl

/-- Equation: the fueled while loop at zero fuel. -/
theorem scanUpF_zero (dirs : List (Option Dir)) (l : Nat) : scanUpF dirs 0 l = l := rfl

/-- The while loop never moves below its starting level. -/
theorem scanUpF_le (dirs : List (Option Dir)) : ∀ k l : Nat, l ≤ scanUpF dirs k l := by
  intro k
  induction k with
  | zero => intro l; rw [scanUpF_zero]
  | succ k ih =>
    intro l
    rw [scanUpF_succ]
    split
    · exact le_trans (Nat.le_succ l) (ih (l + 1))
    · exact le_refl l

/-- A start that fails the loop guard is returned unchanged, at any fuel. -/
theorem scanUpF_nostep (dirs : List (Option Dir)) (k l : Nat)
    (h : ¬(dirs.getD l none = none ∧ l < dirs.length - 1)) :
    scanUpF dirs k l = l := by
  cases k with
  | zero => rfl
  | succ k => rw [scanUpF_succ, if_neg h]

/-- Fuel above the remaining distance to the top is irrelevant: the fueled
loop computes the real while loop. -/
theorem scanUpF_stable (dirs : List (Option Dir)) :
    ∀ k l : Nat, dirs.length - 1 - l ≤ k → scanUpF dirs (k + 1) l = scanUpF dirs k l := by
  intro k
  induction k with
  | zero =>
    intro l hl
    rw [scanUpF_zero, scanUpF_succ, if_neg]
    rintro ⟨-, hlt⟩
    omega
  | succ k ih =>
    intro l hl
    by_cases h : dirs.getD l none = none ∧ l < dirs.length - 1
    · obtain ⟨h1, h2⟩ := h
      have e1 : scanUpF dirs (k + 1 + 1) l = scanUpF dirs (k + 1) (l + 1) := by
        rw [scanUpF_succ, if_pos ⟨h1, h2⟩]
      have e2 : scanUpF dirs (k + 1) l = scanUpF dirs k (l + 1) := by
        rw [scanUpF_succ, if_pos ⟨h1, h2⟩]
      rw [e1, e2]
      exact ih (l + 1) (by omega)
    · rw [scanUpF_nostep dirs (k + 1 + 1) l h, scanUpF_nostep dirs (k + 1) l h]

/-- From any start at or below the top, the scan ends on a populated slot
whenever the top slot is populated. -/
theorem scanUpF_pop (dirs : List (Option Dir)) (hd : Dir)
    (htop : dirs.getD (dirs.length - 1) none = some hd) :
    ∀ k l : Nat, dirs.length - 1 - l ≤ k → l ≤ dirs.length - 1 →
      ∃ d : Dir, dirs.getD (scanUpF dirs k l) none = some d := by
  intro k
  induction k with
  | zero =>
    intro l hk hl
    rw [scanUpF_zero]
    have he : l = dirs.length - 1 := by omega
    exact ⟨hd, he ▸ htop⟩
  | succ k ih =>
    intro l hk hl
    rw [scanUpF_succ]
    split
    · rename_i h
      obtain ⟨-, hlt⟩ := h
      exact ih (l + 1) (by omega) (by omega)
    · rename_i h
      by_cases hsl : dirs.getD l none = none
      · have hlt : ¬ l < dirs.length - 1 := fun hlt => h ⟨hsl, hlt⟩
        have he : l = dirs.length - 1 := by omega
        exact ⟨hd, he ▸ htop⟩
      · rcases ho : dirs.getD l none with _ | d
        · exact absurd ho hsl
        · exact ⟨d, rfl⟩

/-- One step of monotonicity for the scan at the fuel the source uses. -/
theorem scanUpF_mono_step (dirs : List (Option Dir)) (l : Nat) :
    scanUpF dirs dirs.length l ≤ scanUpF dirs dirs.length (l + 1) := by
  by_cases h : dirs.getD l none = none ∧ l < dirs.length - 1
  · obtain ⟨h1, h2⟩ := h
    have hlen : dirs.length = (dirs.length - 1) + 1 := by omega
    have e1 : scanUpF dirs dirs.length l = scanUpF dirs (dirs.length - 1) (l + 1) := by
      conv_lhs => rw [hlen]
      rw [scanUpF_succ, if_pos ⟨h1, h2⟩]
    have e2 : scanUpF dirs dirs.length (l + 1) = scanUpF dirs (dirs.length - 1) (l + 1) := by
      conv_lhs => rw [hlen]
      exact scanUpF_stable dirs (dirs.length - 1) (l + 1) (by omega)
    rw [e1, ← e2]
  · rw [scanUpF_nostep dirs dirs.length l h]
    exact le_trans (Nat.le_succ l) (scanUpF_le dirs dirs.length (l + 1))

/-- Monotonicity of the scan in its starting level. -/
theorem scanUpF_mono (dirs : List (Option Dir)) :
    ∀ l1 l2 : Nat, l1 ≤ l2 →
      scanUpF dirs dirs.length l1 ≤ scanUpF dirs dirs.length l2 := by
  intro l1 l2 h
  induction l2, h using Nat.le_induction with
  | base => exact le_refl _
  | succ l2 h ih => exact le_trans ih (scanUpF_mono_step dirs l2)

/-- C5.  When the top slot is populated (the builder invariant),
getPreferredLevel always lands on a populated slot, and it is monotone
nondecreasing in the requested level; the clamp into [0, levels - 1] and
the upward scan are its definition. -/
theorem c5_preferred_level (p : Pyramid) (hd : Dir)
    (htop : p.directories.getD (p.directories.length - 1) none = some hd) :
    (∀ level : Int, ∃ d : Dir,
      p.directories.getD (getPreferredLevel p level) none = some d)
    ∧ ∀ l1 l2 : Int, l1 ≤ l2 → getPreferredLevel p l1 ≤ getPreferredLevel p l2 := by
  constructor
  · intro level
    unfold getPreferredLevel
    apply scanUpF_pop p.directories hd htop
    · omega
    · omega
  · intro l1 l2 h
    unfold getPreferredLevel
    apply scanUpF_mono
    omega

/-- C5 witness at the sparse fixture: the scan from the clamped level 1
reaches the populated top, and requests 0 and 1 are served monotonically. -/
theorem c5_preferred_level_witness :
    (∃ d : Dir, pyr3.directories.getD (getPreferredLevel pyr3 1) none = some d)
    ∧ getPreferredLevel pyr3 0 ≤ getPreferredLevel pyr3 7 :=
  ⟨(c5_preferred_level pyr3 dTop rfl).1 1,
   (c5_preferred_level pyr3 dTop rfl).2 0 7 (by decide)⟩

/-- Outcomes the enumeration loop does not skip: everything except a
ValidationTiffException. -/
def keepOutcome : DirOutcome → Bool
  | .validationErr _ => false
  | _ => true

/-- The collected directory entries do not depend on the recorded
exception state. -/
theorem scanDirAux_fst_indep (os : List DirOutcome) :
    ∀ acc e1 e2, (scanDirAux acc e1 os).1 = (scanDirAux acc e2 os).1 := by
  induction os with
  | nil => intro acc e1 e2; rfl
  | cons o rest ih =>
    intro acc e1 e2
    cases o with
    | validationErr m => exact ih acc (some m) (some m)
    | tiffErr m => rfl
    | okDir td =>
      simp only [scanDirAux]
      split
      · exact ih acc e1 e2
      · exact ih _ e1 e2

/-- The accumulator only prefixes the collected entries. -/
theorem scanDirAux_acc (os : List DirOutcome) :
    ∀ acc e, (scanDirAux acc e os).1 = acc ++ (scanDirAux [] e os).1 := by
  induction os with
  | nil => intro acc e; simp [scanDirAux]
  | cons o rest ih =>
    intro acc e
    cases o with
    | validationErr m => exact ih acc (some m)
    | tiffErr m => simp [scanDirAux]
    | okDir td =>
      simp only [scanDirAux]
      split
      · exact ih acc e
      · rw [ih (acc ++ [(td.tileWidth * td.tileHeight, dirLevel td, td)]) e,
          ih ([] ++ [(td.tileWidth * td.tileHeight, dirLevel td, td)]) e,
          List.nil_append, List.append_assoc]

/-- Validation failures are tolerated: removing them from the stream leaves
the collected directory entries unchanged, so a failure never aborts the
enumeration of later directories. -/
theorem scanDirAux_tolerant (os : List DirOutcome) :
    ∀ e e', (scanDirAux [] e os).1 = (scanDirAux [] e' (os.filter keepOutcome)).1 := by
  induction os with
  | nil => intro e e'; rfl
  | cons o rest ih =>
    intro e e'
    cases o with
    | validationErr m =>
      simp only [List.filter, keepOutcome]
      exact ih (some m) e'
    | tiffErr m => simp [List.filter, keepOutcome, scanDirAux]
    | okDir td =>
      simp only [List.filter, keepOutcome, scanDirAux]
      split
      · exact ih e e'
      · rw [scanDirAux_acc rest, scanDirAux_acc (rest.filter keepOutcome), ih e e']

/-- C7.  If, after discarding untiled directories and skipping directories
whose parse fails, no usable entry remains, opening fails with the
TileSourceException that preserves the recorded last parse error; parse
failures never abort the enumeration (dropping them from the stream leaves
the usable set unchanged); and a nonempty usable set opens successfully. -/
theorem c7_open_failure (path : String) (os : List DirOutcome) :
    ((scanDirAux [] none os).1 = [] →
      buildPyramid path os =
        .error { path := path, lastException := (scanDirAux [] none os).2 })
    ∧ (scanDirAux [] none os).1 = (scanDirAux [] none (os.filter keepOutcome)).1
    ∧ ((scanDirAux [] none os).1 ≠ [] → ∃ p : Pyramid, buildPyramid path os = .ok p) := by
  refine ⟨?_, scanDirAux_tolerant os none none, ?_⟩
  · intro h
    simp only [buildPyramid]
    rw [h]
    rfl
  · intro h
    have hne : List.insertionSort sortR (scanDirAux [] none os).1 ≠ [] := by
      intro hnil
      apply h
      have hl := congrArg List.length hnil
      rw [(List.perm_insertionSort sortR (scanDirAux [] none os).1).length_eq] at hl
      exact List.length_eq_zero.mp hl
    rcases hex : (List.insertionSort sortR (scanDirAux [] none os).1).getLast? with _ | hi
    · exact absurd (List.getLast?_eq_none_iff.mp hex) hne
    · refine ⟨mkPyramid (List.insertionSort sortR (scanDirAux [] none os).1) hi, ?_⟩
      simp only [buildPyramid]
      rw [hex]

/-- C7 witness: two validation failures followed by the terminating
TiffException preserve the later validation message in the open error, and
one usable directory after a validation failure still opens the source. -/
theorem c7_open_failure_witness :
    buildPyramid "p" [.validationErr "a", .validationErr "b", .tiffErr "c"] =
      .error { path := "p", lastException := some "b" }
    ∧ ∃ p : Pyramid,
      buildPyramid "p" [.validationErr "a", .okDir dTop, .tiffErr "c"] = .ok p :=
  ⟨(c7_open_failure "p" [.validationErr "a", .validationErr "b", .tiffErr "c"]).1 rfl,
   (c7_open_failure "p" [.validationErr "a", .okDir dTop, .tiffErr "c"]).2.2 (by decide)⟩

/-- A defaulted lookup that returns a value proves the index is in range. -/
theorem getD_some_lt {α : Type} (l : List (Option α)) (i : Nat) (d : α)
    (h : l.getD i none = some d) : i < l.length := by
  by_contra hge
  rw [List.getD_eq_default l none (by omega)] at h
  cases h

/-- Python indexing at a Nat index inside the range is the identity. -/
theorem pyNorm_natCast (len z : Nat) (h : z < len) : pyNorm len (z : Int) = some z := by
  unfold pyNorm
  rw [if_pos ⟨by omega, by omega⟩]
  simp

/-- The upward scan of the synthesizer: from a start below k empty levels
with level z + k populated, it stops exactly at z + k having doubled the
scale k times. -/
theorem climbF_spec (dirs : List (Option Dir)) :
    ∀ k z scale kf : Nat, ∀ d : Dir,
      (∀ j : Nat, j < k → dirs.getD (z + j) none = none) →
      dirs.getD (z + k) none = some d →
      k + 1 ≤ kf →
      climbF dirs kf (z : Int) scale = .found ((z + k : Nat) : Int) (scale * 2 ^ k) := by
  intro k
  induction k with
  | zero =>
    intro z scale kf d hempty hpop hkf
    obtain ⟨m, rfl⟩ : ∃ m, kf = m + 1 := ⟨kf - 1, by omega⟩
    have hlt : z < dirs.length := getD_some_lt dirs (z + 0) d hpop
    simp only [climbF, pyNorm_natCast dirs.length z (by omega)]
    rw [show dirs.getD z none = some d from hpop]
    simp
  | succ k ih =>
    intro z scale kf d hempty hpop hkf
    obtain ⟨m, rfl⟩ : ∃ m, kf = m + 1 := ⟨kf - 1, by omega⟩
    have hlt : z < dirs.length := by
      have := getD_some_lt dirs (z + (k + 1)) d hpop
      omega
    have hz0 : dirs.getD z none = none := by
      have := hempty 0 (by omega)
      rwa [Nat.add_zero] at this
    simp only [climbF, pyNorm_natCast dirs.length z hlt, hz0]
    have hcast : ((z : Int) + 1) = ((z + 1 : Nat) : Int) := by push_cast; ring
    rw [hcast]
    have hres := ih (z + 1) (scale * 2) m d
      (fun j hj => by
        have := hempty (j + 1) (by omega)
        rwa [show z + (j + 1) = z + 1 + j by omega] at this)
      (by rwa [show z + 1 + k = z + (k + 1) by omega])
      (by omega)
    rw [hres]
    have e1 : z + 1 + k = z + (k + 1) := by omega
    have e2 : scale * 2 * 2 ^ k = scale * 2 ^ (k + 1) := by ring
    rw [e1, e2]

/-- Membership in the synthesis cell enumeration is exactly the grid bound. -/
theorem synthCells_mem (scale : Nat) (c : Nat × Nat) :
    c ∈ synthCells scale ↔ c.1 < scale ∧ c.2 < scale := by
  unfold synthCells
  rw [List.mem_flatMap]
  constructor
  · rintro ⟨nx, hnx, hc⟩
    rw [List.mem_map] at hc
    obtain ⟨ny, hny, rfl⟩ := hc
    rw [List.mem_range] at hnx hny
    exact ⟨hnx, hny⟩
  · rintro ⟨h1, h2⟩
    exact ⟨c.1, List.mem_range.mpr h1, List.mem_map.mpr ⟨c.2, List.mem_range.mpr h2, rfl⟩⟩

/-- When every non skipped fetch succeeds, the synthesis fold is the plain
paste fold over the non skipped cells. -/
theorem synthFold_ok (tw th : Nat) (skip : Nat → Nat → Bool)
    (fetch : Nat → Nat → Except TErr Tile) (sub : Nat → Nat → Tile) :
    ∀ cs : List (Nat × Nat), ∀ canvas : Tile,
      (∀ c ∈ cs, skip c.1 c.2 = false → fetch c.1 c.2 = .ok (sub c.1 c.2)) →
      cs.foldl (synthPaste tw th skip fetch) (.ok canvas) =
        .ok ((cs.filter (fun c => !skip c.1 c.2)).foldl
          (fun cv c => .paste cv (sub c.1 c.2) (c.1 * tw) (c.2 * th)) canvas) := by
  intro cs
  induction cs with
  | nil => intro canvas h; rfl
  | cons c rest ih =>
    intro canvas h
    rw [List.foldl_cons, List.filter_cons]
    cases hs : skip c.1 c.2 with
    | false =>
      have hstep : synthPaste tw th skip fetch (.ok canvas) c =
          .ok (.paste canvas (sub c.1 c.2) (c.1 * tw) (c.2 * th)) := by
        unfold synthPaste
        rw [hs, h c (List.mem_cons_self c rest) hs]
        simp
      rw [hstep, if_pos (by simp), List.foldl_cons]
      exact ih _ (fun e he hske => h e (List.mem_cons_of_mem c he) hske)
    | true =>
      have hstep : synthPaste tw th skip fetch (.ok canvas) c = .ok canvas := by
        unfold synthPaste
        rw [hs]
        simp
      rw [hstep, if_neg (by simp)]
      exact ih canvas (fun e he hske => h e (List.mem_cons_of_mem c he) hske)

/-- The skip test never removes the origin cell. -/
theorem synthSkip_origin (p : Pyramid) (zc : Int) (x y scale : Nat) :
    synthSkip p zc x y scale 0 0 = false := rfl

/-- Inside the array (zc below levels, the only reachable case from a
nonnegative request), the exact Int comparison of the model is the cleared
denominator form of the source bound
maxX = 2 ** (zc + 1 - levels) * sizeX / tileWidth. -/
theorem synthSkip_eq_bound (p : Pyramid) (zc x y scale nx ny : Nat)
    (hzc : zc < p.directories.length) :
    synthSkip p (zc : Int) x y scale nx ny = true ↔
      ((nx ≠ 0 ∨ ny ≠ 0) ∧
        ((x * scale + nx) * p.tileWidth * 2 ^ (p.directories.length - 1 - zc) ≥ p.sizeX ∨
         (y * scale + ny) * p.tileHeight * 2 ^ (p.directories.length - 1 - zc) ≥ p.sizeY)) := by
  unfold synthSkip
  have e1 : ((p.directories.length : Int) - 1 - (zc : Int)).toNat
      = p.directories.length - 1 - zc := by omega
  have e2 : ((zc : Int) + 1 - (p.directories.length : Int)).toNat = 0 := by omega
  rw [e1, e2]
  simp only [pow_zero, mul_one, Bool.and_eq_true, Bool.or_eq_true, bne_iff_ne,
    decide_eq_true_eq, ne_eq, ge_iff_le]
  constructor
  · rintro ⟨h1, h2⟩
    refine ⟨h1, ?_⟩
    rcases h2 with h2 | h2
    · left; exact_mod_cast h2
    · right; exact_mod_cast h2
  · rintro ⟨h1, h2⟩
    refine ⟨h1, ?_⟩
    rcases h2 with h2 | h2
    · left; exact_mod_cast h2
    · right; exact_mod_cast h2

/-- C4.  From a request at level z with the k levels z .. z + k - 1 empty and
level z + k populated, the synthesizer stops its upward scan at z + k with
scale 2 ^ k (the smallest power reaching data), allocates the
tileWidth * scale by tileHeight * scale canvas, never skips the origin cell,
skips exactly the non origin cells beyond the cleared denominator form of
maxX = 2 ** (z + k + 1 - levels) * sizeX / tileWidth (and the height analogue),
pastes every fetched subtile (dx, dy) at (dx * tileWidth, dy * tileHeight),
and resizes the canvas to one tile. -/
theorem c4_synth_characterization (env : TiffEnv) (fuel x y z k : Nat) (d : Dir)
    (sub : Nat → Nat → Tile)
    (hempty : ∀ j : Nat, j < k → env.pyr.directories.getD (z + j) none = none)
    (hpop : env.pyr.directories.getD (z + k) none = some d)
    (hsub : ∀ nx : Nat, nx < 2 ^ k → ∀ ny : Nat, ny < 2 ^ k →
      synthSkip env.pyr ((z + k : Nat) : Int) x y (2 ^ k) nx ny = false →
      getTileF env fuel (x * 2 ^ k + nx) (y * 2 ^ k + ny) ((z + k : Nat) : Int) true =
        .ok (sub nx ny)) :
    climbF env.pyr.directories (2 * env.pyr.directories.length + 2) (z : Int) 1 =
      .found ((z + k : Nat) : Int) (2 ^ k)
    ∧ synthSkip env.pyr ((z + k : Nat) : Int) x y (2 ^ k) 0 0 = false
    ∧ (∀ nx ny : Nat,
        synthSkip env.pyr ((z + k : Nat) : Int) x y (2 ^ k) nx ny = true ↔
          ((nx ≠ 0 ∨ ny ≠ 0) ∧
            ((x * 2 ^ k + nx) * env.pyr.tileWidth *
                2 ^ (env.pyr.directories.length - 1 - (z + k)) ≥ env.pyr.sizeX ∨
             (y * 2 ^ k + ny) * env.pyr.tileHeight *
                2 ^ (env.pyr.directories.length - 1 - (z + k)) ≥ env.pyr.sizeY)))
    ∧ getTileFromEmptyDirectoryF env fuel x y (z : Int) =
      .ok (.resize env.pyr.tileWidth env.pyr.tileHeight
        (((synthCells (2 ^ k)).filter
            (fun c => !synthSkip env.pyr ((z + k : Nat) : Int) x y (2 ^ k) c.1 c.2)).foldl
          (fun cv c => .paste cv (sub c.1 c.2)
            (c.1 * env.pyr.tileWidth) (c.2 * env.pyr.tileHeight))
          (.blank (env.pyr.tileWidth * 2 ^ k) (env.pyr.tileHeight * 2 ^ k)))) := by
  have hzk : z + k < env.pyr.directories.length := getD_some_lt _ _ _ hpop
  have hclimb := climbF_spec env.pyr.directories k z 1
    (2 * env.pyr.directories.length + 2) d hempty hpop (by omega)
  rw [one_mul] at hclimb
  refine ⟨hclimb, synthSkip_origin _ _ _ _ _, ?_, ?_⟩
  · intro nx ny
    exact synthSkip_eq_bound env.pyr (z + k) x y (2 ^ k) nx ny hzk
  · unfold getTileFromEmptyDirectoryF emptyDirTile
    simp only [hclimb]
    rw [synthFold_ok env.pyr.tileWidth env.pyr.tileHeight
      (fun nx ny => synthSkip env.pyr ((z + k : Nat) : Int) x y (2 ^ k) nx ny)
      (fun nx ny =>
        getTileF env fuel (x * 2 ^ k + nx) (y * 2 ^ k + ny) ((z + k : Nat) : Int) true)
      sub (synthCells (2 ^ k))
      (.blank (env.pyr.tileWidth * 2 ^ k) (env.pyr.tileHeight * 2 ^ k))
      (fun c hc hsk => hsub c.1 ((synthCells_mem _ c).mp hc).1 c.2
        ((synthCells_mem _ c).mp hc).2 hsk)]

/-- C4 witness on the sparse fixture: synthesizing level 1 climbs to level 2
with scale 2 and composes the four level 2 subtiles. -/
theorem c4_synth_characterization_witness :
    climbF pyr3.directories 8 1 1 = .found 2 2
    ∧ getTileFromEmptyDirectoryF env3 5 0 0 1 =
      .ok (.resize 2 2 (((synthCells 2).filter
          (fun c => !synthSkip pyr3 2 0 0 2 c.1 c.2)).foldl
        (fun cv c => .paste cv (.raw 2 c.1 c.2) (c.1 * 2) (c.2 * 2))
        (.blank 4 4))) :=
  ⟨(c4_synth_characterization env3 5 0 0 1 1 dTop (fun nx ny => .raw 2 nx ny)
      (by decide) rfl (by decide)).1,
   (c4_synth_characterization env3 5 0 0 1 1 dTop (fun nx ny => .raw 2 nx ny)
      (by decide) rfl (by decide)).2.2.2⟩

/-- A successful Python index proves the raw index is below the length. -/
theorem pyNorm_some_lt (len : Nat) (z : Int) (idx : Nat)
    (h : pyNorm len z = some idx) : z < (len : Int) := by
  unfold pyNorm at h
  split at h
  · omega
  · split at h
    · omega
    · cases h

/-- An index at or above the length raises IndexError. -/
theorem pyNorm_none_of_ge (len : Nat) (z : Int) (h : (len : Int) ≤ z) :
    pyNorm len z = none := by
  unfold pyNorm
  rw [if_neg (by omega), if_neg (by omega)]

/-- The upward scan cannot exhaust the fuel the synthesizer passes: it finds
a populated slot or walks off the array first. -/
theorem climbF_no_stuck (dirs : List (Option Dir)) :
    ∀ kf : Nat, ∀ z : Int, ∀ scale : Nat, 1 ≤ kf → (dirs.length : Int) + 1 - z ≤ kf →
      climbF dirs kf z scale ≠ .stuck := by
  intro kf
  induction kf with
  | zero => intro z scale h1 h2; omega
  | succ kf ih =>
    intro z scale h1 h2
    rcases hn : pyNorm dirs.length z with _ | idx
    · simp [climbF, hn]
    · have hlt : z < (dirs.length : Int) := pyNorm_some_lt dirs.length z idx hn
      rcases hd : dirs.getD idx none with _ | d
      · simp only [climbF, hn, hd]
        exact ih (z + 1) (scale * 2) (by omega) (by omega)
      · simp only [climbF, hn, hd]
        simp

/-- The upward scan only moves upward and stops inside the array when it
starts at a nonnegative level. -/
theorem climbF_found_facts (dirs : List (Option Dir)) :
    ∀ kf : Nat, ∀ z zc : Int, ∀ scale sc : Nat, 0 ≤ z →
      climbF dirs kf z scale = .found zc sc →
      z ≤ zc ∧ 0 ≤ zc ∧ zc < (dirs.length : Int) := by
  intro kf
  induction kf with
  | zero => intro z zc scale sc hz h; cases h
  | succ kf ih =>
    intro z zc scale sc hz h
    rcases hn : pyNorm dirs.length z with _ | idx
    · simp only [climbF, hn] at h
      cases h
    · have hlt : z < (dirs.length : Int) := pyNorm_some_lt dirs.length z idx hn
      rcases hd : dirs.getD idx none with _ | d
      · simp only [climbF, hn, hd] at h
        have hh := ih (z + 1) zc (scale * 2) sc (by omega) h
        exact ⟨by omega, by omega, hh.2.2⟩
      · simp only [climbF, hn, hd] at h
        cases h
        exact ⟨le_refl z, hz, hlt⟩

/-- The error branch of the handler propagates the recursive error. -/
theorem fallbackQuadF_active_err (env : TiffEnv) (fuel x y : Nat) (z : Int) (e : TErr)
    (hz : z ≠ 0) (hpil : env.pil = true)
    (hrec : getTileF env fuel (x / 2) (y / 2) (z - 1) true = .error e) :
    fallbackQuadF env fuel x y z true = .error e := by
  rw [fallbackQuadF_active env fuel x y z hz hpil, hrec]

/-- The success branch of the handler crops and resizes the parent tile. -/
theorem fallbackQuadF_active_ok (env : TiffEnv) (fuel x y : Nat) (z : Int) (img : Tile)
    (hz : z ≠ 0) (hpil : env.pil = true)
    (hrec : getTileF env fuel (x / 2) (y / 2) (z - 1) true = .ok img) :
    fallbackQuadF env fuel x y z true =
      .ok (quadrantTile env.pyr.tileWidth env.pyr.tileHeight x y img) := by
  rw [fallbackQuadF_active env fuel x y z hz hpil, hrec]

/-- Calls with sparseFallback set only descend one level at a time, so fuel
above the starting level never runs out. -/
theorem getTileF_true_no_fuel (env : TiffEnv) :
    ∀ fuel : Nat, ∀ z : Int, 0 ≤ z → z < (fuel : Int) → ∀ x y : Nat,
      getTileF env fuel x y z true ≠ .error .outOfFuel := by
  intro fuel
  induction fuel with
  | zero => intro z hz hlt x y; omega
  | succ fuel ih =>
    intro z hz hlt x y
    have hfb : fallbackQuadF env fuel x y z true ≠ .error .outOfFuel := by
      by_cases hz0 : z = 0
      · rw [fallbackQuadF_inactive env fuel x y z true (Or.inr (Or.inl hz0))]
        simp
      · by_cases hpil : env.pil = true
        · rcases hres : getTileF env fuel (x / 2) (y / 2) (z - 1) true with e | t
          · rw [fallbackQuadF_active_err env fuel x y z e hz0 hpil hres]
            intro hcon
            injection hcon with he
            exact ih (z - 1) (by omega) (by omega) (x / 2) (y / 2) (by rw [hres, he])
          · rw [fallbackQuadF_active_ok env fuel x y z t hz0 hpil hres]
            simp
        · rw [fallbackQuadF_inactive env fuel x y z true
            (Or.inr (Or.inr (Bool.not_eq_true env.pil ▸ hpil)))]
          simp
    rcases hn : pyNorm env.pyr.directories.length z with _ | idx
    · rw [getTileF_oob env fuel x y z true hn]; simp
    · rcases hd : env.pyr.directories.getD idx none with _ | d
      · rw [getTileF_empty_true env fuel x y z idx hn hd]
        exact hfb
      · rw [getTileF_read env fuel x y z true idx d hn hd]
        rcases env.readTile idx x y
        · simp
        · exact hfb
        · simp

/-- One synthesis fold step never manufactures the fuel marker if no fetch
does. -/
theorem synthFold_no_fuel (tw th : Nat) (skip : Nat → Nat → Bool)
    (fetch : Nat → Nat → Except TErr Tile)
    (hfetch : ∀ c : Nat × Nat, fetch c.1 c.2 ≠ .error .outOfFuel) :
    ∀ cs : List (Nat × Nat), ∀ acc : Except TErr Tile, acc ≠ .error .outOfFuel →
      cs.foldl (synthPaste tw th skip fetch) acc ≠ .error .outOfFuel := by
  intro cs
  induction cs with
  | nil => intro acc h; exact h
  | cons c rest ih =>
    intro acc h
    rw [List.foldl_cons]
    apply ih
    rcases acc with e | canvas
    · exact h
    · unfold synthPaste
      cases hs : skip c.1 c.2 with
      | true => simp
      | false =>
        simp only [Bool.false_eq_true, if_false]
        rcases hfc : fetch c.1 c.2 with e | sub
        · intro hcon
          injection hcon with he
          exact hfetch c (by rw [hfc, he])
        · simp

/-- The final resize match of the synthesizer preserves freedom from the
fuel marker. -/
theorem resizeMatch_no_fuel (tw th : Nat) (r : Except TErr Tile)
    (hr : r ≠ .error .outOfFuel) :
    (match r with
      | .error e => (.error e : Except TErr Tile)
      | .ok canvas => .ok (.resize tw th canvas)) ≠ .error .outOfFuel := by
  rcases r with e | c
  · simpa using hr
  · simp

/-- The synthesizer terminates within fuel at least levels: the climb stops
inside the array and every subtile fetch starts a descending chain bounded
by its level. -/
theorem emptyDirTile_no_fuel (env : TiffEnv) (fuel x y : Nat) (z : Int)
    (hz : 0 ≤ z) (hfl : env.pyr.directories.length ≤ fuel) :
    getTileFromEmptyDirectoryF env fuel x y z ≠ .error .outOfFuel := by
  unfold getTileFromEmptyDirectoryF emptyDirTile
  rcases hc : climbF env.pyr.directories (2 * env.pyr.directories.length + 2) z 1
    with ⟨zc, sc⟩ | _ | _
  · obtain ⟨hge, hzc0, hzclt⟩ :=
      climbF_found_facts env.pyr.directories (2 * env.pyr.directories.length + 2)
        z zc 1 sc hz hc
    simp only [hc]
    apply resizeMatch_no_fuel
    apply synthFold_no_fuel env.pyr.tileWidth env.pyr.tileHeight _ _
      (fun c => getTileF_true_no_fuel env fuel zc hzc0 (by omega)
        (x * sc + c.1) (y * sc + c.2))
    simp
  · simp only [hc]
    simp
  · exact absurd hc (climbF_no_stuck env.pyr.directories
      (2 * env.pyr.directories.length + 2) z 1 (by omega) (by omega))

/-- C6.  Every getTile call with a nonnegative requested level terminates
with fuel above the level count: the embedding never reports fuel
exhaustion once the fuel exceeds levels, because the synthesizer climb
strictly increases z up to a populated slot below levels and every
sparse fallback chain strictly decreases z toward 0. -/
theorem c6_termination (env : TiffEnv) (x y : Nat) (z : Int) (hz : 0 ≤ z) (sf : Bool)
    (fuel : Nat) (hf : env.pyr.directories.length + 1 ≤ fuel) :
    getTileF env fuel x y z sf ≠ .error .outOfFuel := by
  obtain ⟨m, rfl⟩ : ∃ m, fuel = m + 1 := ⟨fuel - 1, by omega⟩
  by_cases hge : (env.pyr.directories.length : Int) ≤ z
  · rw [getTileF_oob env m x y z sf (pyNorm_none_of_ge _ _ hge)]
    simp
  · cases sf with
    | true => exact getTileF_true_no_fuel env (m + 1) z hz (by omega) x y
    | false =>
      rcases hn : pyNorm env.pyr.directories.length z with _ | idx
      · rw [getTileF_oob env m x y z false hn]
        simp
      · rcases hd : env.pyr.directories.getD idx none with _ | d
        · rw [getTileF_empty_false env m x y z idx hn hd]
          exact emptyDirTile_no_fuel env m x y z hz (by omega)
        · rw [getTileF_read env m x y z false idx d hn hd]
          rcases env.readTile idx x y
          · simp
          · rw [fallbackQuadF_inactive env m x y z false (Or.inl rfl)]
            simp
          · simp

/-- C6 witness: a synthesis request on the sparse fixture with fuel
levels + 1 does not exhaust fuel. -/
theorem c6_termination_witness :
    getTileF env3 4 0 0 1 false ≠ .error .outOfFuel :=
  c6_termination env3 0 0 1 (by decide) false 4 (by decide)

/-- A list whose last element is known contains it. -/
theorem getLast?_mem_self {α : Type} : ∀ (l : List α) (a : α), l.getLast? = some a → a ∈ l
  | [], a, h => by cases h
  | [b], a, h => by
    have hb : b = a := by simpa using h
    simp [hb]
  | b :: c :: t, a, h => by
    rw [List.getLast?_cons_cons] at h
    exact List.mem_cons_of_mem b (getLast?_mem_self (c :: t) a h)

/-- In a pairwise sorted list every element is the last element or relates
to it. -/
theorem pairwise_getLast {α : Type} (r : α → α → Prop) :
    ∀ l : List α, l.Pairwise r → ∀ hh : α, l.getLast? = some hh →
      ∀ a ∈ l, a = hh ∨ r a hh := by
  intro l
  induction l with
  | nil => intro _ hh hl a ha; cases hl
  | cons b t ih =>
    intro hp hh hl a ha
    cases t with
    | nil =>
      have hb : b = hh := by simpa using hl
      have hab : a = b := by simpa using ha
      subst hab
      exact Or.inl hb
    | cons c t' =>
      rw [List.getLast?_cons_cons] at hl
      rcases List.mem_cons.mp ha with rfl | hat
      · exact Or.inr ((List.pairwise_cons.mp hp).1 hh
          (getLast?_mem_self (c :: t') hh hl))
      · exact ih (List.pairwise_cons.mp hp).2 hh hl a hat

/-- Filtering by a test the last element passes keeps it last. -/
theorem filter_getLast {α : Type} (P : α → Bool) :
    ∀ l : List α, ∀ hh : α, l.getLast? = some hh → P hh = true →
      (l.filter P).getLast? = some hh := by
  intro l
  induction l with
  | nil => intro hh hl _; cases hl
  | cons b t ih =>
    intro hh hl hP
    cases t with
    | nil =>
      have hb : b = hh := by simpa using hl
      subst hb
      simp [List.filter_cons, hP]
    | cons c t' =>
      rw [List.getLast?_cons_cons] at hl
      have hres := ih hh hl hP
      rw [List.filter_cons]
      split
      · rcases hf : (c :: t').filter P with _ | ⟨u, us⟩
        · rw [hf] at hres; cases hres
        · rw [hf] at hres
          rw [List.getLast?_cons_cons]
          exact hres
      · exact hres

/-- The fold computing max(directories.keys()) dominates its seed. -/
theorem maxKeyOf_aux_ge_init : ∀ (m : List TEntry) (a : Nat),
    a ≤ m.foldl (fun a e => max a e.2.1) a := by
  intro m
  induction m with
  | nil => intro a; exact le_refl a
  | cons e t ih =>
    intro a
    rw [List.foldl_cons]
    exact le_trans (Nat.le_max_left a e.2.1) (ih (max a e.2.1))

/-- The fold computing max(directories.keys()) dominates every level. -/
theorem maxKeyOf_aux_ge_elem : ∀ (m : List TEntry) (a : Nat) (e : TEntry), e ∈ m →
    e.2.1 ≤ m.foldl (fun a e => max a e.2.1) a := by
  intro m
  induction m with
  | nil => intro a e he; cases he
  | cons f t ih =>
    intro a e he
    rw [List.foldl_cons]
    rcases List.mem_cons.mp he with rfl | ht
    · exact le_trans (Nat.le_max_right a e.2.1) (maxKeyOf_aux_ge_init t (max a e.2.1))
    · exact ih (max a f.2.1) e ht

/-- The fold computing max(directories.keys()) returns its seed or an
attained level. -/
theorem maxKeyOf_aux_attained : ∀ (m : List TEntry) (a : Nat),
    m.foldl (fun a e => max a e.2.1) a = a ∨
    ∃ e ∈ m, m.foldl (fun a e => max a e.2.1) a = e.2.1 := by
  intro m
  induction m with
  | nil => intro a; exact Or.inl rfl
  | cons f t ih =>
    intro a
    rw [List.foldl_cons]
    rcases ih (max a f.2.1) with h | ⟨e, he, heq⟩
    · rw [h]
      rcases le_total a f.2.1 with hle | hle
      · exact Or.inr ⟨f, List.mem_cons_self f t, max_eq_right hle⟩
      · exact Or.inl (max_eq_left hle)
    · exact Or.inr ⟨e, List.mem_cons_of_mem f he, heq⟩

/-- Every level is at most max(directories.keys()). -/
theorem maxKeyOf_ge (m : List TEntry) (e : TEntry) (he : e ∈ m) :
    e.2.1 ≤ maxKeyOf m := maxKeyOf_aux_ge_elem m 0 e he

/-- max(directories.keys()) is attained on a nonempty entry list. -/
theorem maxKeyOf_mem (m : List TEntry) (hne : m ≠ []) :
    ∃ e ∈ m, e.2.1 = maxKeyOf m := by
  rcases maxKeyOf_aux_attained m 0 with h | ⟨e, he, heq⟩
  · rcases m with _ | ⟨f, t⟩
    · exact absurd rfl hne
    · refine ⟨f, List.mem_cons_self f t, ?_⟩
      have h1 := maxKeyOf_aux_ge_elem (f :: t) 0 f (List.mem_cons_self f t)
      unfold maxKeyOf
      omega
  · exact ⟨e, he, heq.symm⟩

/-- Every collected entry stores the area of its own directory in its sort
key, as the source builds the alldir tuples. -/
theorem scanDirAux_wf (os : List DirOutcome) :
    ∀ acc lastE, (∀ en ∈ acc, en.1 = en.2.2.tileWidth * en.2.2.tileHeight) →
      ∀ en ∈ (scanDirAux acc lastE os).1,
        en.1 = en.2.2.tileWidth * en.2.2.tileHeight := by
  induction os with
  | nil => intro acc e hacc en hen; exact hacc en hen
  | cons o rest ih =>
    intro acc e hacc en hen
    cases o with
    | validationErr m => exact ih acc (some m) hacc en hen
    | tiffErr m => exact hacc en hen
    | okDir td =>
      revert hen
      simp only [scanDirAux]
      split
      · intro hen
        exact ih acc e hacc en hen
      · intro hen
        refine ih _ e ?_ en hen
        intro fn hfn
        rcases List.mem_append.mp hfn with h1 | h2
        · exact hacc fn h1
        · rcases List.mem_singleton.mp h2 with rfl
          rfl

/-- Reading the dense level array built from a range map at an index inside
the range is the lookup itself. -/
theorem range_map_getD {α : Type} (n : Nat) (f : Nat → Option α) (i : Nat)
    (hilt : i < n) : ((List.range n).map f).getD i none = f i := by
  rw [List.getD_eq_getElem?_getD, List.getElem?_map, List.getElem?_range hilt]
  rfl

/-- The pyramid invariant of the spec: the top slot (index levels - 1, so
levels is one more than the maximum populated index) is populated by the
reference directory, the canonical geometry fields copy that directory, and
every populated slot shares its tile geometry. -/
def pyramidInvariant (p : Pyramid) : Prop :=
  ∃ hd : Dir,
    p.directories.getD (p.directories.length - 1) none = some hd ∧
    1 ≤ p.directories.length ∧
    p.tileWidth = hd.tileWidth ∧ p.tileHeight = hd.tileHeight ∧
    p.sizeX = hd.imageWidth ∧ p.sizeY = hd.imageHeight ∧
    ∀ d : Dir, some d ∈ p.directories →
      d.tileWidth = hd.tileWidth ∧ d.tileHeight = hd.tileHeight

/-- The pyramid assembled from a sorted nonempty entry list with its last
element as reference satisfies the invariant. -/
theorem mkPyramid_invariant (L : List TEntry) (hi : TEntry)
    (hlast : L.getLast? = some hi) (hp : L.Pairwise sortR)
    (hwf : ∀ en ∈ L, en.1 = en.2.2.tileWidth * en.2.2.tileHeight) :
    pyramidInvariant (mkPyramid L hi) := by
  set M := L.filter (fun e =>
    e.2.2.tileWidth == hi.2.2.tileWidth && e.2.2.tileHeight == hi.2.2.tileHeight) with hM
  have hPhi : (fun e : TEntry =>
      e.2.2.tileWidth == hi.2.2.tileWidth && e.2.2.tileHeight == hi.2.2.tileHeight) hi
      = true := by simp
  have hMlast : M.getLast? = some hi := filter_getLast _ L hi hlast hPhi
  have hhiL : hi ∈ L := getLast?_mem_self L hi hlast
  have hhiM : hi ∈ M := getLast?_mem_self M hi hMlast
  have hMgeom : ∀ e ∈ M, e.2.2.tileWidth = hi.2.2.tileWidth ∧
      e.2.2.tileHeight = hi.2.2.tileHeight := by
    intro e he
    have hpe := (List.mem_filter.mp (hM ▸ he)).2
    simpa using hpe
  have hMkey : ∀ e ∈ M, e.2.1 ≤ hi.2.1 := by
    intro e he
    have heL : e ∈ L := List.mem_of_mem_filter (hM ▸ he)
    have harea : e.1 = hi.1 := by
      have h1 := hwf e heL
      have h2 := hwf hi hhiL
      have h3 := hMgeom e he
      rw [h1, h2, h3.1, h3.2]
    rcases pairwise_getLast sortR L hp hi hlast e heL with rfl | hlt
    · exact le_refl _
    · unfold sortR at hlt
      omega
  have hmax : maxKeyOf M = hi.2.1 := by
    apply le_antisymm
    · obtain ⟨e, he, heq⟩ := maxKeyOf_mem M
        (by intro hnil; rw [hnil] at hMlast; cases hMlast)
      rw [← heq]
      exact hMkey e he
    · exact maxKeyOf_ge M hi hhiM
  have hslot : lookupLast M (maxKeyOf M) = some hi.2.2 := by
    unfold lookupLast
    have hQhi : (fun e : TEntry => e.2.1 == maxKeyOf M) hi = true := by
      simp [hmax]
    rw [filter_getLast _ M hi hMlast hQhi]
    rfl
  have hdirs : (mkPyramid L hi).directories =
      (List.range (maxKeyOf M + 1)).map (lookupLast M) := rfl
  have hlen : (mkPyramid L hi).directories.length = maxKeyOf M + 1 := by
    rw [hdirs, List.length_map, List.length_range]
  refine ⟨hi.2.2, ?_, ?_, rfl, rfl, rfl, rfl, ?_⟩
  · rw [hdirs, List.length_map, List.length_range, Nat.add_sub_cancel,
      range_map_getD _ _ _ (by omega)]
    exact hslot
  · rw [hlen]
    omega
  · intro d hd
    rw [hdirs] at hd
    obtain ⟨k, hk, heq⟩ := List.mem_map.mp hd
    unfold lookupLast at heq
    obtain ⟨e, hgl, he2⟩ := Option.map_eq_some'.mp heq
    have heM : e ∈ M := List.mem_of_mem_filter (getLast?_mem_self _ e hgl)
    have hgeom := hMgeom e heM
    rw [← he2]
    exact hgeom

/-- C3.  Every successfully opened source satisfies the pyramid invariant:
levels is the maximum populated index plus one, the top slot holds the
reference directory whose geometry defines tileWidth, tileHeight, sizeX and
sizeY, and every populated slot shares that tile geometry.  The model is
pure, so the built pyramid is never mutated afterwards and the invariant is
preserved by every later operation. -/
theorem c3_build_invariant (path : String) (os : List DirOutcome) (p : Pyramid)
    (h : buildPyramid path os = .ok p) : pyramidInvariant p := by
  simp only [buildPyramid] at h
  rcases hex : (List.insertionSort sortR (scanDirAux [] none os).1).getLast? with _ | hi
  · rw [hex] at h
    cases h
  · rw [hex] at h
    injection h with h
    subst h
    apply mkPyramid_invariant _ _ hex (List.sorted_insertionSort sortR _)
    intro en hen
    exact scanDirAux_wf os [] none (by intro e he; cases he) en
      ((List.perm_insertionSort sortR _).mem_iff.mp hen)

/-- C3 witness: the fixture stream builds exactly the sparse fixture pyramid
and it satisfies the invariant. -/
theorem c3_build_invariant_witness :
    buildPyramid "p" [.okDir dTop, .validationErr "a", .okDir d0, .tiffErr "b"] = .ok pyr3
    ∧ pyramidInvariant pyr3 :=
  ⟨rfl, c3_build_invariant "p" [.okDir dTop, .validationErr "a", .okDir d0, .tiffErr "b"]
    pyr3 rfl⟩
